import Mathlib

/-!
# Verification of the vm-manager configuration merge, port allocation and
# instance scanning logic

This file is a shallow embedding, in Lean 4, of the core logic of the
`vm-manager` repository (`src/config.rs`, `src/utils.rs`,
`src/qemu_runner.rs`, `src/main.rs`), together with theorems settling the
specification claims about it.

Modelling conventions:
* External effects (the `lsof` port probe, directory listings, file
  existence tests, tilde expansion with the user's home directory) are
  collected in an explicit `Env` parameter.
* The unbounded `while` loop of `find_open_port` is embedded with a fuel
  parameter; running out of fuel models the (possible) divergence of the
  source loop and is kept distinct from a Rust `panic!`.
* Rust `panic!`/`unwrap` aborts are modelled by the `panicked` constructor
  of `MergeResult`; normal returns by `ok`.
* Rust `String` is Lean `String`; `usize` is `Nat` (overflow never matters
  for the properties at hand); `PathBuf` is the underlying path `String`.
-/

namespace VmManager

/-- Result of running a piece of Rust code that may `panic!` (modelled with
its message) or loop forever (`diverged`, reached only when the fuel of an
embedded unbounded loop runs out). -/
inductive MergeResult (α : Type) where
  | panicked : String → MergeResult α
  | diverged : MergeResult α
  | ok : α → MergeResult α
  deriving Repr, DecidableEq

/-- `ps ax` style process-table directory entry as seen by `read_dir`:
a path plus whether the entry is a regular file. -/
structure DirEntry where
  path : String
  isFile : Bool

/-- The external world the program consults:
* `home` — the user's home directory (for `shellexpand::tilde`);
* `readDir` — directory listing (`std::fs::read_dir`); `none` models an
  error result;
* `fileExists` — the `Path::is_file` test;
* `probe` — the result of running `lsof -nP -i:port`: `none` models a
  failure to invoke the command at all, `some b` a run whose exit status
  was success (`b = true`) or failure (`b = false`). -/
structure Env where
  home : String
  readDir : String → Option (List DirEntry)
  fileExists : String → Bool
  probe : Nat → Option Bool

/-- Constant `IMAGES_DIRECTORY` from `main.rs`. -/
def IMAGES_DIRECTORY : String := "~/.vm-manager/disk-images"

/-- Constant `DEFAULT_SSH_PORT` from `main.rs`. -/
def DEFAULT_SSH_PORT : Nat := 5555

/-- Constant `DEFAULT_HTTPS_PORT` from `main.rs`. -/
def DEFAULT_HTTPS_PORT : Nat := 8081

/-- Whether `p` is a literal prefix of `s`, character by character. -/
def listIsPrefix : List Char → List Char → Bool
  | [], _ => true
  | _ :: _, [] => false
  | a :: as, b :: bs => a == b && listIsPrefix as bs

/-- Model of Rust `str::starts_with` (literal prefix test). -/
def strStartsWith (s p : String) : Bool :=
  listIsPrefix p.toList s.toList

/-- Model of `shellexpand::tilde`: replace a leading `~` by the home
directory, leave other strings unchanged.  (The crate leaves `~user`
forms alone; every path the program expands is `~/...`, where the two
agree.) -/
def expandTilde (home p : String) : String :=
  if strStartsWith p "~" then home ++ String.mk (p.toList.drop 1) else p

/-- Model of Rust `str::contains` (substring containment). -/
def containsSub (haystack needle : String) : Bool :=
  decide (needle.toList <:+: haystack.toList)

/-- Decimal digit test on a character. -/
def isDigitChar (c : Char) : Bool := 48 ≤ c.toNat && c.toNat ≤ 57

/-- Model of Rust `str::parse::<usize>()`: a non-empty all-digit string
parses to its decimal value, everything else fails.  (Rust additionally
accepts a leading `+`, which never occurs in the inputs at hand.) -/
def parseUsize (s : String) : Option Nat :=
  if s.toList ≠ [] && s.toList.all isDigitChar then
    some (s.toList.foldl (fun a c => a * 10 + (c.toNat - 48)) 0)
  else none

/-- Decimal rendering of a `Nat` (Rust `format!` of a `usize`), with a
structural fuel so that it reduces definitionally. -/
def natToStringAux : Nat → Nat → List Char → List Char
  | 0, _, acc => acc
  | fuel + 1, n, acc =>
    let c := Char.ofNat (48 + n % 10)
    if n < 10 then c :: acc
    else natToStringAux fuel (n / 10) (c :: acc)

/-- Decimal rendering of a `Nat` as a string. -/
def natToString (n : Nat) : String := String.mk (natToStringAux (n + 1) n [])

/-- Splitting of a character list at every occurrence of `sep`,
keeping empty fields — the behaviour of Rust `str::split(char)`. -/
def splitChar (sep : Char) : List Char → List (List Char)
  | [] => [[]]
  | c :: cs =>
    let r := splitChar sep cs
    if c == sep then [] :: r
    else
      match r with
      | [] => [[c]]
      | h :: t => (c :: h) :: t

/-- String-level wrapper of `splitChar`. -/
def splitCharS (sep : Char) (s : String) : List String :=
  (splitChar sep s.toList).map (fun l => String.mk l)

/-- Model of Rust `str::split_ascii_whitespace`: split on whitespace runs,
discarding empty fields. -/
def splitWs (s : String) : List String :=
  ((s.toList.splitOnP (fun c => c == ' ' || c == '\t' || c == '\n' ||
      c == '\x0c' || c == '\r')).filter (fun l => l ≠ [])).map
    (fun l => String.mk l)

/-- Characters of a name strictly before its last `.`, or `none` if the
name has no `.` at all. Helper for the `Path::file_stem` model. -/
def dropLastDot : List Char → Option (List Char)
  | [] => none
  | c :: cs =>
    match dropLastDot cs with
    | some rest => some (c :: rest)
    | none => if c == '.' then some [] else none

/-- Model of the stem of a file *name* (Rust `Path::file_stem` applied to
the last path component): the part before the last `.`, except that a name
whose only `.` is the leading one is kept whole. -/
def stemOfName (f : String) : String :=
  match dropLastDot f.toList with
  | none => f
  | some [] => f
  | some pre => String.mk pre

/-- Model of Rust `Path::file_name`: the last non-empty `/`-separated
component, if any. -/
def pathFileName (p : String) : Option String :=
  (((splitChar '/' p.toList).filter (fun l => l ≠ [])).getLast?).map
    (fun l => String.mk l)

/-- Model of Rust `Path::file_stem` on a whole path. -/
def pathFileStem (p : String) : Option String :=
  (pathFileName p).map stemOfName

/-! ## Port prober and allocator (`utils.rs`, lines 243–255) -/

/-- `is_port_in_use` from `utils.rs`: the port counts as in use when the
`lsof` invocation succeeds with a success exit status, and also when the
invocation itself fails (`Err(_) => true`). -/
def is_port_in_use (probe : Nat → Option Bool) (port : Nat) : Bool :=
  match probe port with
  | some ok => ok
  | none => true

/-- `find_open_port` from `utils.rs`: starting at `starting_port`,
increment while the port is in use.  The source loop has no bound; `fuel`
bounds the embedding, and `none` models non-termination. -/
def find_open_port_fuel (probe : Nat → Option Bool) :
    Nat → Nat → Option Nat
  | 0, _ => none
  | fuel + 1, selected_port =>
    if is_port_in_use probe selected_port then
      find_open_port_fuel probe fuel (selected_port + 1)
    else
      some selected_port

theorem find_open_port_fuel_spec (probe : Nat → Option Bool)
    (fuel s p : Nat) (hsp : s ≤ p)
    (hfree : is_port_in_use probe p = false) (hfuel : p < s + fuel) :
    ∃ r, find_open_port_fuel probe fuel s = some r ∧ s ≤ r ∧
      is_port_in_use probe r = false ∧
      ∀ q, s ≤ q → q < r → is_port_in_use probe q = true := by
  induction fuel generalizing s with
  | zero => omega
  | succ fuel ih =>
    by_cases hs : is_port_in_use probe s = true
    · have hsp' : s + 1 ≤ p := by
        rcases Nat.eq_or_lt_of_le hsp with h | h
        · exact absurd (h ▸ hs) (by simp [hfree])
        · omega
      obtain ⟨r, h1, h2, h3, h4⟩ := ih (s + 1) hsp' (by omega)
      refine ⟨r, ?_, by omega, h3, ?_⟩
      · simpa [find_open_port_fuel, hs] using h1
      · intro q hq1 hq2
        rcases Nat.eq_or_lt_of_le hq1 with h | h
        · exact h ▸ hs
        · exact h4 q h hq2
    · have hs' : is_port_in_use probe s = false := by
        simpa using hs
      exact ⟨s, by simp [find_open_port_fuel, hs'], le_refl s, hs',
        fun q hq1 hq2 => absurd hq2 (by omega)⟩

theorem find_open_port_fuel_ok (probe : Nat → Option Bool)
    (fuel s r : Nat) (h : find_open_port_fuel probe fuel s = some r) :
    probe r = some false := by
  induction fuel generalizing s with
  | zero => simp [find_open_port_fuel] at h
  | succ fuel ih =>
    by_cases hs : is_port_in_use probe s = true
    · exact ih (s + 1) (by simpa [find_open_port_fuel, hs] using h)
    · have hs' : is_port_in_use probe s = false := by simpa using hs
      have hr : r = s := by
        simpa [find_open_port_fuel, hs'] using h.symm
      subst hr
      unfold is_port_in_use at hs'
      cases hp : probe r with
      | none => rw [hp] at hs'; simp at hs'
      | some b => rw [hp] at hs'; simp at hs'; simp [hs']

/-! ## Configuration data model (`config.rs`) -/

/-- `QemuRunOption` from `config.rs`: a single (possibly multi-token)
hypervisor option string. -/
structure QemuRunOption where
  option : String
  deriving Repr, DecidableEq

/-- `QemuRunOption::new`: tabs are replaced by spaces at construction. -/
def QemuRunOption.new (s : String) : QemuRunOption :=
  ⟨String.mk (s.toList.map (fun c => if c == '\t' then ' ' else c))⟩

/-- `QemuRunOption::as_str`. -/
def QemuRunOption.as_str (o : QemuRunOption) : String := o.option

/-- `QemuRunOption::get_opt_list`: split the option text on single spaces
(empty fields kept, matching Rust `split(' ')`). -/
def QemuRunOption.get_opt_list (o : QemuRunOption) : List String :=
  splitCharS ' ' o.option

/-- `PortMapping` from `config.rs`. -/
structure PortMapping where
  host_port : String
  vm_port : String
  explicit : Bool
  deriving Repr, DecidableEq

/-- `PortMapping::is_explicit_mapping`. -/
def PortMapping.is_explicit_mapping (m : PortMapping) : Bool := m.explicit

/-- `PortMapping::format_nic` from `config.rs` (lines 211–220): for a
non-explicit mapping, parse the stored host port (aborting with a message
when it is not a non-negative integer), resolve it through
`find_open_port` and overwrite the stored port; then (in all cases) render
the forwarding clause from the stored fields.  Returns the clause together
with the (possibly updated) mapping. -/
def PortMapping.format_nic (probe : Nat → Option Bool) (fuel : Nat)
    (m : PortMapping) : MergeResult (String × PortMapping) :=
  if m.is_explicit_mapping then
    .ok ("hostfwd=tcp::" ++ m.host_port ++ "-:" ++ m.vm_port, m)
  else
    match parseUsize m.host_port with
    | none =>
      .panicked ("ERROR: For intended mapping from host port '" ++
        m.host_port ++ "' to VM port '" ++ m.vm_port ++
        "', unable to read host port '" ++ m.host_port ++
        "' as an unsigned integer.")
    | some host_port =>
      match find_open_port_fuel probe fuel host_port with
      | none => .diverged
      | some r =>
        let m2 : PortMapping := { m with host_port := natToString r }
        .ok ("hostfwd=tcp::" ++ m2.host_port ++ "-:" ++ m2.vm_port, m2)

/-- `VMConfig` from `config.rs`. -/
structure VMConfig where
  image_name : String
  port_mappings : List PortMapping
  options : List QemuRunOption
  use_global_options : Bool
  daemonize : Bool
  deriving Repr, DecidableEq

/-- Whether an option is a network-interface (`-nic`) option: the test
`option.starts_with("-nic")` used throughout `config.rs`. -/
def isNicOpt (o : QemuRunOption) : Bool := strStartsWith o.option "-nic"

/-- Number of network-interface options in a list. -/
def countNic (os : List QemuRunOption) : Nat :=
  (os.filter isNicOpt).length

/-- `VMConfig::option_nic_present` (`config.rs`, lines 123–131). -/
def VMConfig.option_nic_present (vm : VMConfig) : Bool :=
  vm.options.any isNicOpt

/-- `VMConfig::add_qemu_option` (`config.rs`, lines 133–153): a `-nic`
option added while one is already present replaces the text of every
existing `-nic` option; any other addition appends. -/
def VMConfig.add_qemu_option (vm : VMConfig) (o : QemuRunOption) :
    VMConfig :=
  if isNicOpt o && vm.option_nic_present then
    { vm with options :=
        vm.options.map (fun so =>
          if isNicOpt so then { so with option := o.option } else so) }
  else
    { vm with options := vm.options ++ [o] }

/-- `Config` from `config.rs`. -/
structure Config where
  base_images_directory : Option String
  global_qemu_options : List QemuRunOption
  vms : List VMConfig
  deriving Repr, DecidableEq

/-- `Config::get_images_directory`. -/
def Config.get_images_directory (c : Config) : String :=
  match c.base_images_directory with
  | some directory => directory
  | none => IMAGES_DIRECTORY

/-- `Config::get_backup_images_directory`. -/
def Config.get_backup_images_directory (c : Config) : String :=
  c.get_images_directory ++ "/backups"

/-- `Config::get_vm_config_with_image_name` (`config.rs`, lines 98–103):
first VM whose image name contains the requested substring. -/
def Config.get_vm_config_with_image_name (c : Config) (image_name : String) :
    Option VMConfig :=
  c.vms.find? (fun vm => containsSub vm.image_name image_name)

/-! ## The merge pass of `Config::load_from_file` (`config.rs`, 34–68) -/

/-- Formatting of all port mappings of a VM, in order, threading the
in-place updates `format_nic` makes to each mapping
(the `iter_mut().map(...).collect()` of `config.rs`, lines 51–56). -/
def formatMappings (probe : Nat → Option Bool) (fuel : Nat) :
    List PortMapping → MergeResult (List String × List PortMapping)
  | [] => .ok ([], [])
  | m :: rest =>
    match m.format_nic probe fuel with
    | .panicked s => .panicked s
    | .diverged => .diverged
    | .ok (str, m2) =>
      match formatMappings probe fuel rest with
      | .panicked s => .panicked s
      | .diverged => .diverged
      | .ok (strs, ms) => .ok (str :: strs, m2 :: ms)

/-- The source's attachment of the joined forwarding clauses to a `-nic`
option's text (`config.rs`, lines 57–65): a bare `-nic` receives them
space-separated as its sole argument, any other text comma-appended. -/
def attachClauses (pre joined : String) : String :=
  if pre == "-nic" then pre ++ " " ++ joined else pre ++ "," ++ joined

/-- The loop of `config.rs` lines 49–67: walk the option list; at every
`-nic` option format all port mappings (mutating them in place) and attach
the joined clauses to the option's text. -/
def appendNicClauses (probe : Nat → Option Bool) (fuel : Nat) :
    List QemuRunOption → List PortMapping →
    MergeResult (List QemuRunOption × List PortMapping)
  | [], pms => .ok ([], pms)
  | o :: rest, pms =>
    if isNicOpt o then
      match formatMappings probe fuel pms with
      | .panicked s => .panicked s
      | .diverged => .diverged
      | .ok (strs, pms2) =>
        let joined := String.intercalate "," strs
        match appendNicClauses probe fuel rest pms2 with
        | .panicked s => .panicked s
        | .diverged => .diverged
        | .ok (os, pms3) =>
          .ok ({ o with option := attachClauses o.option joined } :: os,
            pms3)
    else
      match appendNicClauses probe fuel rest pms with
      | .panicked s => .panicked s
      | .diverged => .diverged
      | .ok (os, pms3) => .ok (o :: os, pms3)

/-- The `-nic` synthesis step (`config.rs`, lines 42–46): add a bare
`-nic` option when none is present and at least one port mapping
exists. -/
def mergeSynthNic (vm1 : VMConfig) : VMConfig :=
  if !vm1.option_nic_present && !vm1.port_mappings.isEmpty then
    vm1.add_qemu_option (QemuRunOption.new "-nic")
  else vm1

/-- The first two phases of the per-VM merge (`config.rs`, lines 34–46):
fold the global options in through `add_qemu_option` when
`use_global_options` is set, then synthesize a bare `-nic` option when
none is present and at least one port mapping exists. -/
def mergePhase2 (globals : List QemuRunOption) (vm : VMConfig) : VMConfig :=
  mergeSynthNic
    (if vm.use_global_options then globals.foldl VMConfig.add_qemu_option vm
     else vm)

/-- The whole per-VM merge pass of `Config::load_from_file`
(`config.rs`, lines 34–68). -/
def loadMergeVM (probe : Nat → Option Bool) (fuel : Nat)
    (globals : List QemuRunOption) (vm : VMConfig) :
    MergeResult VMConfig :=
  let vm2 := mergePhase2 globals vm
  match appendNicClauses probe fuel vm2.options vm2.port_mappings with
  | .panicked s => .panicked s
  | .diverged => .diverged
  | .ok (os, pms) =>
    .ok { vm2 with options := os, port_mappings := pms }

/-- The merge pass over a whole configuration, including the defaulting of
the images directory (`config.rs`, lines 34–75).  File reading and YAML
deserialization are external collaborators and are not modelled. -/
def Config.load_merge (probe : Nat → Option Bool) (fuel : Nat)
    (c : Config) : MergeResult Config :=
  let rec go : List VMConfig → MergeResult (List VMConfig)
    | [] => .ok []
    | vm :: rest =>
      match loadMergeVM probe fuel c.global_qemu_options vm with
      | .panicked s => .panicked s
      | .diverged => .diverged
      | .ok vm2 =>
        match go rest with
        | .panicked s => .panicked s
        | .diverged => .diverged
        | .ok rest2 => .ok (vm2 :: rest2)
  match go c.vms with
  | .panicked s => .panicked s
  | .diverged => .diverged
  | .ok vms2 =>
    let dir : Option String :=
      match c.base_images_directory with
      | none => some IMAGES_DIRECTORY
      | some d => some d
    .ok { c with vms := vms2, base_images_directory := dir }

/-! ## Image listing and resolution (`utils.rs`, lines 70–116, 220–242) -/

/-- The two disk-image locations of `main.rs`. -/
inductive ImageLocation where
  | WorkingImages
  | BackupImages

/-- The directory consulted for an image location (the
`images_directory` binding of `get_list_of_images`). -/
def imagesDirFor (image_location : ImageLocation) (config : Config) :
    String :=
  match image_location with
  | .WorkingImages => config.get_images_directory
  | .BackupImages => config.get_backup_images_directory

/-- `get_list_of_images` from `utils.rs` (lines 70–116): list the chosen
directory, keep regular files, take their file stems, and drop the stem
`"nohup"`.  A directory-read error yields the empty list. -/
def get_list_of_images (env : Env) (image_location : ImageLocation)
    (config : Config) : List String :=
  match env.readDir (expandTilde env.home
      (imagesDirFor image_location config)) with
  | none => []
  | some entries =>
    ((entries.filterMap (fun f =>
        if f.isFile then pathFileStem f.path else none)).filter
      (fun filename => filename ≠ "nohup"))

/-- The counting loop of `get_file_from_image_name` (`utils.rs`,
lines 221–228): number of image names containing the request, together
with the last such name (`""` when there is none). -/
def findUniqueImage (image_name : String) (images : List String) :
    Nat × String :=
  images.foldl
    (fun acc full_image_name =>
      if containsSub full_image_name image_name then
        (acc.1 + 1, full_image_name)
      else acc)
    (0, "")

/-- `get_file_from_image_name` from `utils.rs` (lines 220–242): unique
substring match against the working-image list, then an existence check of
`IMAGES_DIRECTORY/{name}.img` (note: the fixed constant, not the
configured directory). -/
def get_file_from_image_name (env : Env) (image_name : String)
    (config : Config) : Option String :=
  if (findUniqueImage image_name
        (get_list_of_images env .WorkingImages config)).2 = "" ∨
     (findUniqueImage image_name
        (get_list_of_images env .WorkingImages config)).1 > 1 then
    none
  else if env.fileExists (expandTilde env.home (IMAGES_DIRECTORY ++ "/" ++
      (findUniqueImage image_name
        (get_list_of_images env .WorkingImages config)).2 ++ ".img")) then
    some (expandTilde env.home (IMAGES_DIRECTORY ++ "/" ++
      (findUniqueImage image_name
        (get_list_of_images env .WorkingImages config)).2 ++ ".img"))
  else
    none

/-! ## QemuRunner (`qemu_runner.rs`) -/

/-- `QemuRunner` from `qemu_runner.rs`.  The `image` field holds the path
string of the resolved disk image (`PathBuf` in the source). -/
structure QemuRunner where
  daemonize : Bool
  ssh_port : Nat
  https_port : Nat
  specified_ssh_port : Bool
  specified_https_port : Bool
  image : String
  pid : Option Nat
  vm_config : Option VMConfig

/-- `QemuRunner::new` (`qemu_runner.rs`, lines 34–55). -/
def QemuRunner.new (env : Env) (ssh_port https_port : Nat)
    (image_name : String) (pid : Option Nat) (config : Config) :
    QemuRunner :=
  { daemonize := true
    ssh_port := ssh_port
    https_port := https_port
    specified_ssh_port := false
    specified_https_port := false
    image :=
      match get_file_from_image_name env image_name config with
      | some image => image
      | none => ""
    pid := pid
    vm_config := none }

/-- `QemuRunner::image_name` (`qemu_runner.rs`, lines 79–85). -/
def QemuRunner.image_name (r : QemuRunner) : String :=
  match pathFileStem r.image with
  | some fstem => fstem
  | none => "Can't get image name"

/-- `QemuRunner::set_ssh_port`. -/
def QemuRunner.set_ssh_port (r : QemuRunner) (port : Nat) : QemuRunner :=
  { r with ssh_port := port, specified_ssh_port := true }

/-- `QemuRunner::set_https_port`. -/
def QemuRunner.set_https_port (r : QemuRunner) (port : Nat) : QemuRunner :=
  { r with https_port := port, specified_https_port := true }

/-- The fixed ad hoc argument vector built by `QemuRunner::start`
(`qemu_runner.rs`, lines 151–186), including the `nohup` detach wrapper
when daemonizing. -/
def adHocArgs (r : QemuRunner) : List String :=
  let daemonization_opt : String :=
    if r.daemonize then "-daemonize" else "-nographic"
  let nic_args : String :=
    "user,model=virtio,hostfwd=tcp::" ++ natToString r.ssh_port ++
      "-:22,hostfwd=tcp::" ++ natToString r.https_port ++ "-:443"
  let drive_args : String := "file=" ++ r.image
  let args : List String :=
    ["qemu-system-x86_64", daemonization_opt, "-drive", drive_args,
     "-m", "8G", "-smp", "4", "-accel", "kvm", "-accel", "tcg",
     "-cpu", "host", "-vnc", "none", "-nic", nic_args]
  if r.daemonize then "nohup" :: args else args

/-- `QemuRunner::start_with_vm_config` (`qemu_runner.rs`, lines 86–128).
A successful run is modelled by `Except.ok args`: the argument vector that
is handed to the external process-spawn collaborator
(`run_shell_command`); every `Except.error` is returned before any spawn
is attempted. -/
def QemuRunner.start_with_vm_config (env : Env) (r : QemuRunner)
    (config : Config) : Except String (List String) :=
  match r.vm_config with
  | some vm_config =>
    match get_file_from_image_name env vm_config.image_name config with
    | none =>
      .error ("Unable to find image with name containing '" ++
        vm_config.image_name ++ "' in directory '" ++
        config.get_images_directory ++ "'")
    | some image_path =>
      let drive_args := "file=" ++ image_path
      let args : List String :=
        ["qemu-system-x86_64",
         if vm_config.daemonize then "-daemonize" else "-nographic",
         "-drive", drive_args]
      let args := if vm_config.daemonize then "nohup" :: args else args
      let extra := (vm_config.options.filter (fun o =>
        !(strStartsWith o.as_str "-daemonize") &&
        !(strStartsWith o.as_str "-nographic"))).flatMap
          QemuRunOption.get_opt_list
      .ok (args ++ extra)
  | none => .error "No VM config provided!"

/-- `QemuRunner::start` (`qemu_runner.rs`, lines 129–191): with an
attached VM config, delegate; otherwise pre-flight-check any explicitly
specified SSH/HTTPS port and the image file, then hand the ad hoc
argument vector to the spawner (`Except.ok`). -/
def QemuRunner.start (env : Env) (r : QemuRunner) (config : Config) :
    Except String (List String) :=
  if r.vm_config.isSome then
    r.start_with_vm_config env config
  else if r.specified_ssh_port && is_port_in_use env.probe r.ssh_port then
    .error ("ERROR: You specified SSH port '" ++ natToString r.ssh_port ++
      "', which is in use. Choose a different port, or don't specify " ++
      "and let the program choose.")
  else if r.specified_https_port && is_port_in_use env.probe r.https_port
  then
    -- the source interpolates `self.ssh_port` here as well
    .error ("ERROR: You specified HTTPS port '" ++ natToString r.ssh_port ++
      "', which is in use. Choose a different port, or don't specify " ++
      "and let the program choose.")
  else if !env.fileExists r.image then
    .error ("ERROR: Selected image file '" ++ r.image ++
      "' does not exist!")
  else
    .ok (adHocArgs r)

/-! ## Running-instance scanner (`utils.rs`, lines 118–179) -/

/-- Data extracted from one process-table line before the
`QemuRunner::new` call. -/
structure RawVM where
  pid : Nat
  filename : String
  ssh_port : Nat
  https_port : Nat
  deriving Repr, DecidableEq

/-- Parsing of one matching process-table line (`utils.rs`,
lines 140–167): `ok none` models the `continue` branch (drive token
without `=`), `panicked` the out-of-bounds indexings and `unwrap`s of the
source. -/
def parsePsLine (line : String) : MergeResult (Option RawVM) :=
  let strings := splitWs line
  match strings.get? 7 with
  | none => .panicked "index out of bounds: strings[7]"
  | some drive_tok =>
    match (splitCharS '=' drive_tok).get? 1 with
    | none => .ok none
    | some fname =>
      match pathFileStem fname with
      | none => .panicked "called `Option::unwrap()` on a `None` value"
      | some filename =>
        match strings.get? 0 with
        | none => .panicked "index out of bounds: strings[0]"
        | some pid_tok =>
          match parseUsize pid_tok with
          | none =>
            .panicked ("Unable to parse '" ++ pid_tok ++ "' as usize.")
          | some pid =>
            match strings.get? 21 with
            | none => .panicked "index out of bounds: strings[21]"
            | some nic_tok =>
              let port_data := splitCharS ',' nic_tok
              match port_data.get? 2, port_data.get? 3 with
              | some ssh_clause, some https_clause =>
                match (splitCharS ':' ssh_clause).get? 2,
                    (splitCharS ':' https_clause).get? 2 with
                | some ssh_field, some https_field =>
                  match parseUsize (String.mk ssh_field.toList.dropLast),
                      parseUsize (String.mk https_field.toList.dropLast) with
                  | some ssh_port, some https_port =>
                    .ok (some ⟨pid, filename, ssh_port, https_port⟩)
                  | _, _ => .panicked "unwrap on port parse"
                | _, _ => .panicked "index out of bounds: port fields"
              | _, _ => .panicked "index out of bounds: port_data"

/-- The per-line loop of `get_list_of_running_vms`. -/
def scanLines (env : Env) (config : Config) :
    List String → MergeResult (List QemuRunner)
  | [] => .ok []
  | line :: rest =>
    match parsePsLine line with
    | .panicked s => .panicked s
    | .diverged => .diverged
    | .ok none => scanLines env config rest
    | .ok (some raw) =>
      match scanLines env config rest with
      | .panicked s => .panicked s
      | .diverged => .diverged
      | .ok rs =>
        .ok (QemuRunner.new env raw.ssh_port raw.https_port raw.filename
          (some raw.pid) config :: rs)

/-- `get_list_of_running_vms` from `utils.rs` (lines 118–179), applied to
the text the external `ps ax` collaborator produced: split into lines,
keep those mentioning the hypervisor binary, and parse each one. -/
def get_list_of_running_vms (env : Env) (config : Config)
    (ps_output : String) : MergeResult (List QemuRunner) :=
  scanLines env config
    ((splitCharS '\n' ps_output).filter
      (fun l => containsSub l "qemu-system-x86_64"))

/-! ## Helper lemmas about the merge engine -/

theorem listIsPrefix_append (p s t : List Char)
    (h : listIsPrefix p s = true) : listIsPrefix p (s ++ t) = true := by
  induction p generalizing s with
  | nil => simp [listIsPrefix]
  | cons a as ih =>
    cases s with
    | nil => simp [listIsPrefix] at h
    | cons b bs =>
      simp only [listIsPrefix, Bool.and_eq_true] at h ⊢
      exact ⟨h.1, ih bs h.2⟩

theorem strStartsWith_append (s t p : String)
    (h : strStartsWith s p = true) : strStartsWith (s ++ t) p = true := by
  unfold strStartsWith at h ⊢
  have : (s ++ t).toList = s.toList ++ t.toList := String.data_append s t
  rw [this]
  exact listIsPrefix_append _ _ _ h

/-- Attaching forwarding clauses keeps an option a `-nic` option. -/
theorem isNic_attachClauses (pre joined : String)
    (h : strStartsWith pre "-nic" = true) :
    strStartsWith (attachClauses pre joined) "-nic" = true := by
  unfold attachClauses
  by_cases hb : pre == "-nic"
  · simp only [hb, if_pos]
    exact strStartsWith_append _ _ _ (strStartsWith_append _ _ _ h)
  · simp only [hb, Bool.false_eq_true, if_neg, if_false]
    exact strStartsWith_append _ _ _ (strStartsWith_append _ _ _ h)

theorem countNic_append (os : List QemuRunOption) (o : QemuRunOption) :
    countNic (os ++ [o]) =
      countNic os + (if isNicOpt o then 1 else 0) := by
  unfold countNic
  rw [List.filter_append, List.length_append]
  by_cases h : isNicOpt o <;> simp [h, List.filter]

theorem countNic_nil_iff (os : List QemuRunOption) :
    countNic os = 0 ↔ os.filter isNicOpt = [] := by
  unfold countNic
  exact List.length_eq_zero

theorem option_nic_present_iff (vm : VMConfig) :
    vm.option_nic_present = true ↔ 0 < countNic vm.options := by
  unfold VMConfig.option_nic_present countNic
  rw [List.any_eq_true, List.length_pos_iff_ne_nil]
  constructor
  · rintro ⟨x, hx, hpx⟩ hnil
    rw [List.filter_eq_nil_iff] at hnil
    exact hnil x hx hpx
  · intro h
    rcases List.exists_mem_of_ne_nil _ h with ⟨x, hx⟩
    rw [List.mem_filter] at hx
    exact ⟨x, hx.1, hx.2⟩

/-- `add_qemu_option` leaves every field except `options` alone. -/
theorem add_qemu_option_fields (vm : VMConfig) (o : QemuRunOption) :
    (vm.add_qemu_option o).port_mappings = vm.port_mappings ∧
    (vm.add_qemu_option o).image_name = vm.image_name ∧
    (vm.add_qemu_option o).use_global_options = vm.use_global_options ∧
    (vm.add_qemu_option o).daemonize = vm.daemonize := by
  unfold VMConfig.add_qemu_option
  split <;> exact ⟨rfl, rfl, rfl, rfl⟩

/-- Replacing the text of the `-nic` entries does not change how many
options are `-nic` options. -/
theorem countNic_map_replace (os : List QemuRunOption) (t : String)
    (ht : strStartsWith t "-nic" = true) :
    countNic (os.map (fun so => if isNicOpt so then ⟨t⟩ else so)) =
      countNic os := by
  induction os with
  | nil => rfl
  | cons o os ih =>
    by_cases h : isNicOpt o
    · have hnt : isNicOpt (⟨t⟩ : QemuRunOption) = true := ht
      simp only [List.map_cons, h, if_pos]
      unfold countNic at ih ⊢
      simp [List.filter, h, hnt, ih]
    · simp only [List.map_cons, h, Bool.false_eq_true, if_neg, if_false]
      unfold countNic at ih ⊢
      simp [List.filter, h, ih]

/-- `add_qemu_option` never pushes the number of `-nic` options past one:
the collision rule replaces instead of appending. -/
theorem add_qemu_option_le_one (vm : VMConfig) (o : QemuRunOption)
    (h : countNic vm.options ≤ 1) :
    countNic (vm.add_qemu_option o).options ≤ 1 := by
  unfold VMConfig.add_qemu_option
  by_cases hc : (isNicOpt o && vm.option_nic_present) = true
  · rw [if_pos hc]
    simp only [Bool.and_eq_true] at hc
    rw [countNic_map_replace _ _ hc.1]
    exact h
  · rw [if_neg hc]
    simp only [Bool.and_eq_true, not_and] at hc
    rw [countNic_append]
    by_cases ho : isNicOpt o
    · have : ¬ vm.option_nic_present = true := fun hp => by
        simp [ho, hp] at hc
      have h0 : countNic vm.options = 0 := by
        rcases Nat.eq_zero_or_pos (countNic vm.options) with h0 | h0
        · exact h0
        · exact absurd ((option_nic_present_iff vm).mpr h0) this
      simp [ho, h0]
    · simp [ho, h]

theorem foldl_add_qemu_option_le_one (gs : List QemuRunOption)
    (vm : VMConfig) (h : countNic vm.options ≤ 1) :
    countNic (gs.foldl VMConfig.add_qemu_option vm).options ≤ 1 := by
  induction gs generalizing vm with
  | nil => exact h
  | cons g gs ih =>
    exact ih (vm.add_qemu_option g) (add_qemu_option_le_one vm g h)

theorem foldl_add_qemu_option_pms (gs : List QemuRunOption)
    (vm : VMConfig) :
    (gs.foldl VMConfig.add_qemu_option vm).port_mappings =
      vm.port_mappings := by
  induction gs generalizing vm with
  | nil => rfl
  | cons g gs ih =>
    rw [List.foldl_cons, ih (vm.add_qemu_option g),
      (add_qemu_option_fields vm g).1]

theorem mergeSynthNic_pms (vm1 : VMConfig) :
    (mergeSynthNic vm1).port_mappings = vm1.port_mappings := by
  unfold mergeSynthNic
  split
  · exact (add_qemu_option_fields _ _).1
  · rfl

theorem mergePhase2_pms (gs : List QemuRunOption) (vm : VMConfig) :
    (mergePhase2 gs vm).port_mappings = vm.port_mappings := by
  unfold mergePhase2
  rw [mergeSynthNic_pms]
  split
  · rw [foldl_add_qemu_option_pms]
  · rfl

theorem mergeSynthNic_le_one (vm1 : VMConfig)
    (h : countNic vm1.options ≤ 1) :
    countNic (mergeSynthNic vm1).options ≤ 1 := by
  unfold mergeSynthNic
  split
  · exact add_qemu_option_le_one vm1 _ h
  · exact h

theorem mergePhase2_le_one (gs : List QemuRunOption) (vm : VMConfig)
    (h : countNic vm.options ≤ 1) :
    countNic (mergePhase2 gs vm).options ≤ 1 := by
  unfold mergePhase2
  split
  · exact mergeSynthNic_le_one _ (foldl_add_qemu_option_le_one gs vm h)
  · exact mergeSynthNic_le_one _ h

theorem mergeSynthNic_count_one (vm1 : VMConfig)
    (h1 : countNic vm1.options ≤ 1) (hpm : vm1.port_mappings ≠ []) :
    countNic (mergeSynthNic vm1).options = 1 := by
  unfold mergeSynthNic
  by_cases hpres : vm1.option_nic_present = true
  · have hpos := (option_nic_present_iff vm1).mp hpres
    have hone : countNic vm1.options = 1 := by omega
    simp only [hpres, Bool.not_true, Bool.false_and, Bool.false_eq_true,
      if_false]
    exact hone
  · have hzero : countNic vm1.options = 0 := by
      rcases Nat.eq_zero_or_pos (countNic vm1.options) with h0 | h0
      · exact h0
      · exact absurd ((option_nic_present_iff vm1).mpr h0) hpres
    have hne : vm1.port_mappings.isEmpty = false := by
      simpa [List.isEmpty_iff] using hpm
    have hpres' : vm1.option_nic_present = false := by
      simpa using hpres
    simp only [hpres', hne, Bool.not_false, Bool.and_self, if_true]
    unfold VMConfig.add_qemu_option
    rw [if_neg (by simp [hpres'])]
    rw [countNic_append]
    have : isNicOpt (QemuRunOption.new "-nic") = true := by decide
    simp [this, hzero]

/-- After the first two merge phases a VM with a non-empty port-mapping
list has exactly one `-nic` option, provided it started with at most
one. -/
theorem mergePhase2_count_one (gs : List QemuRunOption) (vm : VMConfig)
    (h : countNic vm.options ≤ 1) (hpm : vm.port_mappings ≠ []) :
    countNic (mergePhase2 gs vm).options = 1 := by
  unfold mergePhase2
  split
  · exact mergeSynthNic_count_one _ (foldl_add_qemu_option_le_one gs vm h)
      (by rw [foldl_add_qemu_option_pms]; exact hpm)
  · exact mergeSynthNic_count_one _ h hpm

/-- Shape of a single successfully formatted forwarding clause. -/
theorem format_nic_ok_shape (probe : Nat → Option Bool) (fuel : Nat)
    (m m2 : PortMapping) (s : String)
    (h : m.format_nic probe fuel = .ok (s, m2)) :
    s = "hostfwd=tcp::" ++ m2.host_port ++ "-:" ++ m2.vm_port ∧
    m2.vm_port = m.vm_port := by
  unfold PortMapping.format_nic at h
  by_cases he : m.is_explicit_mapping = true
  · simp only [he, if_true, MergeResult.ok.injEq, Prod.mk.injEq] at h
    obtain ⟨h1, h2⟩ := h
    subst h1; subst h2
    exact ⟨rfl, rfl⟩
  · simp only [he, Bool.false_eq_true, if_false] at h
    cases hp : parseUsize m.host_port with
    | none => simp only [hp] at h; exact absurd h (by simp)
    | some hp' =>
      simp only [hp] at h
      cases hf : find_open_port_fuel probe fuel hp' with
      | none => simp only [hf] at h; exact absurd h (by simp)
      | some r =>
        simp only [hf, MergeResult.ok.injEq, Prod.mk.injEq] at h
        obtain ⟨h1, h2⟩ := h
        subst h1; subst h2
        exact ⟨rfl, rfl⟩

/-- Successful formatting of a mapping list: one clause per mapping, in
order, each rendering the (possibly updated) mapping's ports. -/
theorem formatMappings_ok_shape (probe : Nat → Option Bool) (fuel : Nat)
    (pms : List PortMapping) (cs : List String) (pms2 : List PortMapping)
    (h : formatMappings probe fuel pms = .ok (cs, pms2)) :
    cs.length = pms.length ∧ pms2.length = pms.length ∧
    ∀ i m, pms.get? i = some m →
      ∃ m2, pms2.get? i = some m2 ∧ m2.vm_port = m.vm_port ∧
        cs.get? i =
          some ("hostfwd=tcp::" ++ m2.host_port ++ "-:" ++ m2.vm_port) := by
  induction pms generalizing cs pms2 with
  | nil =>
    unfold formatMappings at h
    simp only [MergeResult.ok.injEq, Prod.mk.injEq] at h
    obtain ⟨h1, h2⟩ := h
    subst h1; subst h2
    exact ⟨rfl, rfl, fun i m hm => by simp at hm⟩
  | cons m0 rest ih =>
    unfold formatMappings at h
    cases hf : m0.format_nic probe fuel with
    | panicked s => simp only [hf] at h; exact absurd h (by simp)
    | diverged => simp only [hf] at h; exact absurd h (by simp)
    | ok pr =>
      obtain ⟨str, m2⟩ := pr
      simp only [hf] at h
      cases hr : formatMappings probe fuel rest with
      | panicked s => simp only [hr] at h; exact absurd h (by simp)
      | diverged => simp only [hr] at h; exact absurd h (by simp)
      | ok pr2 =>
        obtain ⟨strs, ms⟩ := pr2
        simp only [hr, MergeResult.ok.injEq, Prod.mk.injEq] at h
        obtain ⟨h1, h2⟩ := h
        subst h1; subst h2
        obtain ⟨l1, l2, hsh⟩ := ih strs ms hr
        refine ⟨by simp [l1], by simp [l2], fun i m hm => ?_⟩
        cases i with
        | zero =>
          simp only [List.get?] at hm
          obtain ⟨hs, hv⟩ := format_nic_ok_shape probe fuel m0 m2 str hf
          refine ⟨m2, by simp, ?_, by simp [hs]⟩
          rw [hv]
          simpa using congrArg PortMapping.vm_port (Option.some.inj hm)
        | succ i =>
          simp only [List.get?] at hm ⊢
          exact hsh i m hm

/-- A list without `-nic` options passes through the clause-append loop
unchanged and does not touch the mappings. -/
theorem appendNicClauses_no_nic (probe : Nat → Option Bool) (fuel : Nat)
    (os : List QemuRunOption) (pms : List PortMapping)
    (h : countNic os = 0) :
    appendNicClauses probe fuel os pms = .ok (os, pms) := by
  induction os with
  | nil => rfl
  | cons o rest ih =>
    rw [countNic_nil_iff, List.filter_cons] at h
    by_cases ho : isNicOpt o
    · simp [ho] at h
    · simp only [ho, Bool.false_eq_true, if_false] at h
      unfold appendNicClauses
      simp only [ho, Bool.false_eq_true, if_false]
      rw [ih ((countNic_nil_iff rest).mpr h)]

/-- The clause-append loop with exactly one `-nic` option present:
the mappings are formatted once, attached to that option's text, and the
updated mappings are stored. -/
theorem appendNicClauses_single (probe : Nat → Option Bool) (fuel : Nat)
    (os : List QemuRunOption) (pms pms2 : List PortMapping)
    (pre : String) (cs : List String)
    (hos : os.filter isNicOpt = [⟨pre⟩])
    (hfmt : formatMappings probe fuel pms = .ok (cs, pms2)) :
    ∃ os2, appendNicClauses probe fuel os pms = .ok (os2, pms2) ∧
      os2.filter isNicOpt =
        [⟨attachClauses pre (String.intercalate "," cs)⟩] := by
  induction os generalizing pms with
  | nil => simp at hos
  | cons o rest ih =>
    by_cases ho : isNicOpt o = true
    · have hcons : (⟨pre⟩ : QemuRunOption) = o ∧
          rest.filter isNicOpt = [] := by
        rw [List.filter_cons] at hos
        simp only [ho, if_true] at hos
        exact ⟨(List.cons.inj hos).1.symm, (List.cons.inj hos).2⟩
      have hrest0 : countNic rest = 0 :=
        (countNic_nil_iff rest).mpr hcons.2
      unfold appendNicClauses
      simp only [ho, if_true, hfmt,
        appendNicClauses_no_nic probe fuel rest pms2 hrest0]
      refine ⟨_, rfl, ?_⟩
      have hpren : strStartsWith o.option "-nic" = true := ho
      have hnic2 : isNicOpt
          (⟨attachClauses o.option (String.intercalate "," cs)⟩ :
            QemuRunOption) = true :=
        isNic_attachClauses o.option _ hpren
      rw [List.filter_cons]
      simp only [hnic2, if_true, hcons.2]
      rw [← hcons.1]
    · have ho' : isNicOpt o = false := by simpa using ho
      have hrest : rest.filter isNicOpt = [⟨pre⟩] := by
        rw [List.filter_cons] at hos
        simpa only [ho', Bool.false_eq_true, if_false] using hos
      obtain ⟨os2, h1, h2⟩ := ih pms hrest hfmt
      unfold appendNicClauses
      simp only [ho', Bool.false_eq_true, if_false, h1]
      refine ⟨o :: os2, rfl, ?_⟩
      rw [List.filter_cons]
      simpa only [ho', Bool.false_eq_true, if_false] using h2

/-- The clause-append loop preserves the number of `-nic` options. -/
theorem appendNicClauses_countNic (probe : Nat → Option Bool) (fuel : Nat)
    (os os2 : List QemuRunOption) (pms pms2 : List PortMapping)
    (h : appendNicClauses probe fuel os pms = .ok (os2, pms2)) :
    countNic os2 = countNic os := by
  induction os generalizing pms os2 with
  | nil =>
    unfold appendNicClauses at h
    simp only [MergeResult.ok.injEq, Prod.mk.injEq] at h
    rw [← h.1]
  | cons o rest ih =>
    unfold appendNicClauses at h
    by_cases ho : isNicOpt o = true
    · simp only [ho, if_true] at h
      cases hf : formatMappings probe fuel pms with
      | panicked s => simp only [hf] at h; exact absurd h (by simp)
      | diverged => simp only [hf] at h; exact absurd h (by simp)
      | ok pr =>
        obtain ⟨strs, pmsx⟩ := pr
        simp only [hf] at h
        cases hr : appendNicClauses probe fuel rest pmsx with
        | panicked s => simp only [hr] at h; exact absurd h (by simp)
        | diverged => simp only [hr] at h; exact absurd h (by simp)
        | ok pr2 =>
          obtain ⟨osx, pmsy⟩ := pr2
          simp only [hr, MergeResult.ok.injEq, Prod.mk.injEq] at h
          obtain ⟨h1, h2⟩ := h
          subst h1; subst h2
          have hnic2 : isNicOpt
              (⟨attachClauses o.option (String.intercalate "," strs)⟩ :
                QemuRunOption) = true :=
            isNic_attachClauses o.option _ ho
          unfold countNic at ih ⊢
          rw [List.filter_cons, List.filter_cons]
          simp only [hnic2, ho, if_true, List.length_cons]
          rw [ih osx pmsx hr]
    · have ho' : isNicOpt o = false := by simpa using ho
      simp only [ho', Bool.false_eq_true, if_false] at h
      cases hr : appendNicClauses probe fuel rest pms with
      | panicked s => simp only [hr] at h; exact absurd h (by simp)
      | diverged => simp only [hr] at h; exact absurd h (by simp)
      | ok pr2 =>
        obtain ⟨osx, pmsy⟩ := pr2
        simp only [hr, MergeResult.ok.injEq, Prod.mk.injEq] at h
        obtain ⟨h1, h2⟩ := h
        subst h1; subst h2
        unfold countNic at ih ⊢
        rw [List.filter_cons, List.filter_cons]
        simp only [ho', Bool.false_eq_true, if_false]
        rw [ih osx pms hr]

/-! ## Claims C1 and C2: the network-interface merge invariant -/

/-- C1 (amended): for a VM whose raw option list holds at most one
network-interface option and whose port-mapping list is non-empty, a
successful merge pass leaves exactly one `-nic` option; its text is the
pre-merge `-nic` text with one formatted `hostfwd=tcp::HOST-:GUEST`
clause per mapping attached, comma-separated in mapping order — after a
single space when the pre-merge text was the bare `-nic`, after a comma
otherwise.  (The unamended claim, quantified over all VMs, fails when the
raw options already contain several `-nic` entries; see the
counterexample.) -/
theorem claim_C1_merge_exactly_one_nic (probe : Nat → Option Bool)
    (fuel : Nat) (gs : List QemuRunOption) (vm vm' : VMConfig)
    (cs : List String) (pms2 : List PortMapping)
    (h1 : countNic vm.options ≤ 1)
    (h2 : vm.port_mappings ≠ [])
    (hfmt : formatMappings probe fuel vm.port_mappings = .ok (cs, pms2))
    (h3 : loadMergeVM probe fuel gs vm = .ok vm') :
    countNic vm'.options = 1 ∧
    vm'.port_mappings = pms2 ∧
    (∃ pre, (mergePhase2 gs vm).options.filter isNicOpt = [⟨pre⟩] ∧
      vm'.options.filter isNicOpt =
        [⟨attachClauses pre (String.intercalate "," cs)⟩]) ∧
    cs.length = vm.port_mappings.length ∧
    (∀ i m, vm.port_mappings.get? i = some m →
      ∃ m2, pms2.get? i = some m2 ∧ m2.vm_port = m.vm_port ∧
        cs.get? i =
          some ("hostfwd=tcp::" ++ m2.host_port ++ "-:" ++ m2.vm_port)) := by
  have hc1 : countNic (mergePhase2 gs vm).options = 1 :=
    mergePhase2_count_one gs vm h1 h2
  obtain ⟨onic, hfil⟩ := List.length_eq_one.mp hc1
  have hfil' : (mergePhase2 gs vm).options.filter isNicOpt =
      [⟨onic.option⟩] := by
    rw [hfil]
  obtain ⟨os2, happ, hfil2⟩ := appendNicClauses_single probe fuel
    (mergePhase2 gs vm).options vm.port_mappings pms2 onic.option cs
    hfil' hfmt
  simp only [loadMergeVM] at h3
  rw [mergePhase2_pms gs vm] at h3
  simp only [happ, MergeResult.ok.injEq] at h3
  subst h3
  obtain ⟨hl, _, hsh⟩ := formatMappings_ok_shape probe fuel
    vm.port_mappings cs pms2 hfmt
  refine ⟨?_, rfl, ⟨onic.option, hfil', hfil2⟩, hl, hsh⟩
  unfold countNic
  rw [hfil2]
  rfl

/-- The VM of the C1/C2 counterexamples: its raw option list already
contains two distinct `-nic` options. -/
def cexVM : VMConfig :=
  { image_name := "x"
    port_mappings := [⟨"5555", "22", true⟩]
    options := [⟨"-nic a"⟩, ⟨"-nic b"⟩]
    use_global_options := false
    daemonize := false }

/-- C1 counterexample: the merge pass keeps both raw `-nic` options and
appends the forwarding clauses to each of them, so "exactly one option
starts with `-nic`" fails for this VM. -/
theorem claim_C1_counterexample :
    loadMergeVM (fun _ => none) 0 [] cexVM =
      .ok { cexVM with options :=
        [⟨"-nic a,hostfwd=tcp::5555-:22"⟩,
         ⟨"-nic b,hostfwd=tcp::5555-:22"⟩] } ∧
    countNic [(⟨"-nic a,hostfwd=tcp::5555-:22"⟩ : QemuRunOption),
      ⟨"-nic b,hostfwd=tcp::5555-:22"⟩] = 2 := by
  constructor
  · rfl
  · rfl

/-- Probe of the C1/C4 witnesses: ports 5000–5002 occupied, everything
else free. -/
def probeW : Nat → Option Bool :=
  fun p => some (decide (p = 5000 ∨ p = 5001 ∨ p = 5002))

/-- A well-formed single-mapping VM used by the C1 witness. -/
def vmW : VMConfig :=
  { image_name := "web"
    port_mappings := [⟨"5555", "22", false⟩]
    options := []
    use_global_options := false
    daemonize := false }

/-- Merge result of `vmW` under `probeW`. -/
def vmWres : VMConfig :=
  { image_name := "web"
    port_mappings := [⟨"5555", "22", false⟩]
    options := [⟨"-nic hostfwd=tcp::5555-:22"⟩]
    use_global_options := false
    daemonize := false }

theorem claim_C1_witness :
    countNic vmWres.options = 1 ∧
    vmWres.port_mappings = [⟨"5555", "22", false⟩] ∧
    (∃ pre, (mergePhase2 [] vmW).options.filter isNicOpt = [⟨pre⟩] ∧
      vmWres.options.filter isNicOpt =
        [⟨attachClauses pre
          (String.intercalate "," ["hostfwd=tcp::5555-:22"])⟩]) ∧
    List.length ["hostfwd=tcp::5555-:22"] = vmW.port_mappings.length ∧
    (∀ i m, vmW.port_mappings.get? i = some m →
      ∃ m2, List.get? [(⟨"5555", "22", false⟩ : PortMapping)] i = some m2 ∧
        m2.vm_port = m.vm_port ∧
        List.get? ["hostfwd=tcp::5555-:22"] i =
          some ("hostfwd=tcp::" ++ m2.host_port ++ "-:" ++ m2.vm_port)) :=
  claim_C1_merge_exactly_one_nic probeW 10 [] vmW vmWres
    ["hostfwd=tcp::5555-:22"] [⟨"5555", "22", false⟩]
    (by decide) (by decide) (by rfl) (by rfl)

/-- C2 (amended): adding a `-nic` option through `add_qemu_option` while
one is already present replaces the text of the existing `-nic` entries
instead of appending, so the number of `-nic` options never grows past
one when the VM's raw list held at most one — under that proviso the
whole merge pass also leaves at most one.  (The unamended "never more
than one after merge, regardless of the local options" fails when the raw
list itself holds several `-nic` entries; see the counterexample.) -/
theorem claim_C2_nic_collision_replaces (probe : Nat → Option Bool)
    (fuel : Nat) (gs : List QemuRunOption) (vm vm' : VMConfig)
    (o : QemuRunOption) :
    (isNicOpt o = true → vm.option_nic_present = true →
      (vm.add_qemu_option o).options =
        vm.options.map (fun so =>
          if isNicOpt so then { so with option := o.option } else so)) ∧
    (countNic vm.options ≤ 1 →
      countNic (vm.add_qemu_option o).options ≤ 1) ∧
    (countNic vm.options ≤ 1 → loadMergeVM probe fuel gs vm = .ok vm' →
      countNic vm'.options ≤ 1) := by
  refine ⟨?_, add_qemu_option_le_one vm o, ?_⟩
  · intro ho hpres
    unfold VMConfig.add_qemu_option
    rw [if_pos (by rw [ho, hpres]; rfl)]
  · intro h1 h3
    have hp2 : countNic (mergePhase2 gs vm).options ≤ 1 :=
      mergePhase2_le_one gs vm h1
    simp only [loadMergeVM] at h3
    cases happ : appendNicClauses probe fuel (mergePhase2 gs vm).options
        (mergePhase2 gs vm).port_mappings with
    | panicked s => simp only [happ] at h3; exact absurd h3 (by simp)
    | diverged => simp only [happ] at h3; exact absurd h3 (by simp)
    | ok pr =>
      obtain ⟨os2, pms3⟩ := pr
      simp only [happ, MergeResult.ok.injEq] at h3
      subst h3
      have := appendNicClauses_countNic probe fuel
        (mergePhase2 gs vm).options os2
        (mergePhase2 gs vm).port_mappings pms3 happ
      simpa [this] using hp2

/-- The VM of the C2 counterexample: two raw `-nic` options, no port
mappings, globals enabled. -/
def cexVM2 : VMConfig :=
  { image_name := "y"
    port_mappings := []
    options := [⟨"-nic x"⟩, ⟨"-nic y"⟩]
    use_global_options := true
    daemonize := false }

/-- C2 counterexample: after the merge pass this VM still carries two
`-nic` options (each with an empty clause list appended), so "the options
list never contains more than one network-interface directive after merge
processing" fails. -/
theorem claim_C2_counterexample :
    loadMergeVM (fun _ => none) 0 [] cexVM2 =
      .ok { cexVM2 with options := [⟨"-nic x,"⟩, ⟨"-nic y,"⟩] } ∧
    countNic [(⟨"-nic x,"⟩ : QemuRunOption), ⟨"-nic y,"⟩] = 2 := by
  constructor
  · rfl
  · rfl

/-- A VM with one `-nic` option among others, for the C2 witness. -/
def vmW2 : VMConfig :=
  { image_name := "z"
    port_mappings := []
    options := [⟨"-m 8G"⟩, ⟨"-nic u"⟩]
    use_global_options := false
    daemonize := false }

theorem claim_C2_witness :
    countNic (VMConfig.options
      { vmW2 with options := [⟨"-m 8G"⟩, ⟨"-nic u,"⟩] }) ≤ 1 :=
  (claim_C2_nic_collision_replaces (fun _ => none) 0 [] vmW2
    { vmW2 with options := [⟨"-m 8G"⟩, ⟨"-nic u,"⟩] } ⟨"-nic w"⟩).2.2
    (by decide) (by decide)

/-! ## Claims C4, C5, C9: port allocation and clause formatting -/

/-- C4: whenever some port at or above the start is unoccupied (within
the fuel bound of the embedded loop), `find_open_port` returns the least
unoccupied port at or above the start, probing each port upward in steps
of one. -/
theorem claim_C4_find_open_port_least (probe : Nat → Option Bool)
    (fuel s p : Nat) (hsp : s ≤ p)
    (hfree : is_port_in_use probe p = false) (hfuel : p < s + fuel) :
    ∃ r, find_open_port_fuel probe fuel s = some r ∧ s ≤ r ∧
      is_port_in_use probe r = false ∧
      ∀ q, s ≤ q → q < r → is_port_in_use probe q = true :=
  find_open_port_fuel_spec probe fuel s p hsp hfree hfuel

theorem claim_C4_witness :
    find_open_port_fuel probeW 10 5000 = some 5003 ∧
    ∃ r, find_open_port_fuel probeW 10 5000 = some r ∧ 5000 ≤ r ∧
      is_port_in_use probeW r = false ∧
      ∀ q, 5000 ≤ q → q < r → is_port_in_use probeW q = true :=
  ⟨by rfl,
   claim_C4_find_open_port_least probeW 10 5000 5003 (by decide)
     (by decide) (by decide)⟩

/-- C5: `format_nic` leaves an explicit mapping untouched and renders its
clause without consulting the probe; for a non-explicit mapping it aborts
with a message exactly when the stored host port is not a non-negative
integer, and on success stores the allocator's port back into the mapping
before rendering the clause from it. -/
theorem claim_C5_format_nic (probe : Nat → Option Bool) (fuel : Nat)
    (m : PortMapping) :
    (m.explicit = true →
      m.format_nic probe fuel =
        .ok ("hostfwd=tcp::" ++ m.host_port ++ "-:" ++ m.vm_port, m)) ∧
    (m.explicit = false →
      ((∃ msg, m.format_nic probe fuel = .panicked msg) ↔
        parseUsize m.host_port = none)) ∧
    (∀ hp r, m.explicit = false → parseUsize m.host_port = some hp →
      find_open_port_fuel probe fuel hp = some r →
      m.format_nic probe fuel =
        .ok ("hostfwd=tcp::" ++ natToString r ++ "-:" ++ m.vm_port,
          { m with host_port := natToString r })) := by
  refine ⟨?_, ?_, ?_⟩
  · intro he
    unfold PortMapping.format_nic PortMapping.is_explicit_mapping
    rw [if_pos he]
  · intro he
    unfold PortMapping.format_nic PortMapping.is_explicit_mapping
    rw [if_neg (by rw [he]; exact Bool.false_ne_true)]
    constructor
    · rintro ⟨msg, hmsg⟩
      cases hp : parseUsize m.host_port with
      | none => rfl
      | some hp' =>
        simp only [hp] at hmsg
        cases hf : find_open_port_fuel probe fuel hp' with
        | none => simp only [hf] at hmsg; exact absurd hmsg (by simp)
        | some r => simp only [hf] at hmsg; exact absurd hmsg (by simp)
    · intro hp
      rw [hp]
      exact ⟨_, rfl⟩
  · intro hp r he hparse hfind
    unfold PortMapping.format_nic PortMapping.is_explicit_mapping
    rw [if_neg (by rw [he]; exact Bool.false_ne_true)]
    simp only [hparse, hfind]

theorem claim_C5_witness :
    ((⟨"5555", "22", true⟩ : PortMapping).format_nic probeW 10 =
      .ok ("hostfwd=tcp::" ++ "5555" ++ "-:" ++ "22",
        ⟨"5555", "22", true⟩)) ∧
    ((∃ msg, (⟨"50x0", "22", false⟩ : PortMapping).format_nic probeW 10 =
      .panicked msg) ↔ parseUsize "50x0" = none) ∧
    ((⟨"5000", "443", false⟩ : PortMapping).format_nic probeW 10 =
      .ok ("hostfwd=tcp::" ++ natToString 5003 ++ "-:" ++ "443",
        ⟨natToString 5003, "443", false⟩)) :=
  ⟨(claim_C5_format_nic probeW 10 ⟨"5555", "22", true⟩).1 rfl,
   (claim_C5_format_nic probeW 10 ⟨"50x0", "22", false⟩).2.1 rfl,
   (claim_C5_format_nic probeW 10 ⟨"5000", "443", false⟩).2.2 5000 5003
     rfl (by decide) (by decide)⟩

/-- C9: a failed probe invocation is indistinguishable from an occupied
port, so `find_open_port` can only ever return a port on which the probe
ran successfully and reported the port free. -/
theorem claim_C9_probe_failure_in_use (probe : Nat → Option Bool) :
    (∀ p, probe p = none → is_port_in_use probe p = true) ∧
    (∀ fuel s r, find_open_port_fuel probe fuel s = some r →
      probe r = some false) := by
  constructor
  · intro p hp
    unfold is_port_in_use
    rw [hp]
  · intro fuel s r h
    exact find_open_port_fuel_ok probe fuel s r h

theorem claim_C9_witness :
    is_port_in_use (fun _ => none) 7 = true ∧
    (fun _ => (none : Option Bool)) 5003 = none ∧
    probeW 5003 = some false :=
  ⟨(claim_C9_probe_failure_in_use (fun _ => none)).1 7 rfl, rfl,
   (claim_C9_probe_failure_in_use probeW).2 10 5000 5003 (by decide)⟩

/-! ## Claim C6: explicit ad hoc ports fail fast -/

/-- C6: for an ad hoc start (no attached VM config), an explicitly
specified SSH or HTTPS port that is in use makes `start` return an error
without reaching the spawn of the hypervisor (`Except.ok args` is the
only path that hands `args` to the spawner); when both ports are free and
the image file exists, the spawner receives exactly the ad hoc argument
vector, whose network-interface argument carries the stored ports
unchanged. -/
theorem claim_C6_start_explicit_conflict (env : Env) (config : Config)
    (r : QemuRunner) (h : r.vm_config = none) :
    ((r.specified_ssh_port = true ∧
        is_port_in_use env.probe r.ssh_port = true) ∨
     (r.specified_https_port = true ∧
        is_port_in_use env.probe r.https_port = true) →
      ∃ e, r.start env config = .error e) ∧
    (is_port_in_use env.probe r.ssh_port = false →
     is_port_in_use env.probe r.https_port = false →
     env.fileExists r.image = true →
      r.start env config = .ok (adHocArgs r) ∧
      ("user,model=virtio,hostfwd=tcp::" ++ natToString r.ssh_port ++
        "-:22,hostfwd=tcp::" ++ natToString r.https_port ++ "-:443")
        ∈ adHocArgs r) := by
  have hsome : r.vm_config.isSome = false := by rw [h]; rfl
  constructor
  · intro hc
    unfold QemuRunner.start
    rw [if_neg (by rw [hsome]; exact Bool.false_ne_true)]
    by_cases h1 : (r.specified_ssh_port &&
        is_port_in_use env.probe r.ssh_port) = true
    · rw [if_pos h1]
      exact ⟨_, rfl⟩
    · rw [if_neg h1]
      have h2 : (r.specified_https_port &&
          is_port_in_use env.probe r.https_port) = true := by
        rcases hc with ⟨ha, hb⟩ | ⟨ha, hb⟩
        · exact absurd (by rw [ha, hb]; rfl) h1
        · rw [ha, hb]; rfl
      rw [if_pos h2]
      exact ⟨_, rfl⟩
  · intro hssh https hfile
    unfold QemuRunner.start
    rw [if_neg (by rw [hsome]; exact Bool.false_ne_true)]
    rw [if_neg (by rw [hssh]; simp)]
    rw [if_neg (by rw [https]; simp)]
    rw [if_neg (by rw [hfile]; simp)]
    refine ⟨rfl, ?_⟩
    unfold adHocArgs
    split <;> simp

/-- A runner with an explicitly specified, occupied SSH port, for the C6
witness. -/
def runnerW : QemuRunner :=
  { daemonize := true
    ssh_port := 5000
    https_port := 8081
    specified_ssh_port := true
    specified_https_port := false
    image := "/h/i.img"
    pid := none
    vm_config := none }

/-- Environment for the C6 witness: `probeW` occupancy, every file
present. -/
def envW : Env :=
  { home := "/h"
    readDir := fun _ => some []
    fileExists := fun _ => true
    probe := probeW }

theorem claim_C6_witness :
    (∃ e, runnerW.start envW ⟨none, [], []⟩ = .error e) ∧
    ({ runnerW with ssh_port := 5555 }.start envW ⟨none, [], []⟩ =
      .ok (adHocArgs { runnerW with ssh_port := 5555 }) ∧
      ("user,model=virtio,hostfwd=tcp::" ++ natToString 5555 ++
        "-:22,hostfwd=tcp::" ++ natToString 8081 ++ "-:443")
        ∈ adHocArgs { runnerW with ssh_port := 5555 }) :=
  ⟨(claim_C6_start_explicit_conflict envW ⟨none, [], []⟩ runnerW rfl).1
     (Or.inl ⟨rfl, by decide⟩),
   (claim_C6_start_explicit_conflict envW ⟨none, [], []⟩
     { runnerW with ssh_port := 5555 } rfl).2 (by decide) (by decide) rfl⟩

/-! ## Claim C8: first-match VM-config lookup -/

/-- `find?` returns the first element satisfying the predicate. -/
theorem find?_first {α : Type} (l : List α) (p : α → Bool) (a : α)
    (h : l.find? p = some a) :
    p a = true ∧ ∃ i, l.get? i = some a ∧
      ∀ j b, j < i → l.get? j = some b → p b = false := by
  induction l with
  | nil => simp at h
  | cons x l ih =>
    by_cases hx : p x = true
    · rw [List.find?_cons_of_pos _ hx] at h
      obtain hax := Option.some.inj h
      subst hax
      exact ⟨hx, 0, rfl, fun j b hj => by omega⟩
    · have hx' : p x = false := by simpa using hx
      rw [List.find?_cons_of_neg _ (by simp [hx'])] at h
      obtain ⟨hp, i, hi, hfirst⟩ := ih h
      refine ⟨hp, i + 1, hi, fun j b hj hjb => ?_⟩
      cases j with
      | zero =>
        simp only [List.get?] at hjb
        rw [Option.some.inj hjb] at hx'
        exact hx'
      | succ j =>
        exact hfirst j b (by omega) hjb

/-- C8: `get_vm_config_with_image_name` returns the first VM, in
declaration order, whose image name contains the requested substring, and
`none` exactly when no VM's image name contains it; several matches are
not an error — the earliest one wins. -/
theorem claim_C8_first_vm_config_match (c : Config) (name : String) :
    (c.get_vm_config_with_image_name name = none ↔
      ∀ vm ∈ c.vms, containsSub vm.image_name name = false) ∧
    (∀ vm, c.get_vm_config_with_image_name name = some vm →
      containsSub vm.image_name name = true ∧
      ∃ i, c.vms.get? i = some vm ∧
        ∀ j vmj, j < i → c.vms.get? j = some vmj →
          containsSub vmj.image_name name = false) := by
  constructor
  · unfold Config.get_vm_config_with_image_name
    rw [List.find?_eq_none]
    constructor
    · intro h vm hvm
      have := h vm hvm
      simpa using this
    · intro h vm hvm
      rw [h vm hvm]
      exact Bool.false_ne_true
  · intro vm h
    exact find?_first c.vms _ vm h

/-- First VM of the C8 witness configuration. -/
def vmA : VMConfig :=
  { image_name := "ubuntu"
    port_mappings := []
    options := []
    use_global_options := false
    daemonize := false }

/-- Second VM of the C8 witness configuration; its name also contains
`"u"`. -/
def vmB : VMConfig :=
  { image_name := "utopic"
    port_mappings := []
    options := []
    use_global_options := false
    daemonize := false }

/-- Config of the C8 witness: two VMs whose names both contain `"u"`. -/
def configW8 : Config := ⟨none, [], [vmA, vmB]⟩

theorem claim_C8_witness :
    (configW8.get_vm_config_with_image_name "zz" = none ↔
      ∀ vm ∈ configW8.vms, containsSub vm.image_name "zz" = false) ∧
    (containsSub vmA.image_name "u" = true ∧
      ∃ i, configW8.vms.get? i = some vmA ∧
        ∀ j vmj, j < i → configW8.vms.get? j = some vmj →
          containsSub vmj.image_name "u" = false) :=
  ⟨(claim_C8_first_vm_config_match configW8 "zz").1,
   (claim_C8_first_vm_config_match configW8 "u").2 vmA (by decide)⟩

/-! ## Claims C7 and C10: image listing and resolution -/

/-- The match-counting fold of `get_file_from_image_name`, expressed
through `filter`: the count is the number of matches and the remembered
name is the last match (default `""`). -/
theorem findUniqueImage_foldl (name : String) (l : List String)
    (n : Nat) (s : String) :
    l.foldl
      (fun acc full_image_name =>
        if containsSub full_image_name name then (acc.1 + 1, full_image_name)
        else acc) (n, s) =
      (n + (l.filter (fun i => containsSub i name)).length,
       (l.filter (fun i => containsSub i name)).getLastD s) := by
  induction l generalizing n s with
  | nil => simp
  | cons x l ih =>
    rw [List.foldl_cons, List.filter_cons]
    by_cases hx : containsSub x name
    · simp only [hx, if_true]
      rw [ih (n + 1) x]
      rw [List.getLastD_cons]
      simp only [List.length_cons, Prod.mk.injEq]
      exact ⟨by omega, trivial⟩
    · simp only [hx, Bool.false_eq_true, if_false]
      exact ih n s

theorem findUniqueImage_eq (name : String) (l : List String) :
    findUniqueImage name l =
      ((l.filter (fun i => containsSub i name)).length,
       (l.filter (fun i => containsSub i name)).getLastD "") := by
  unfold findUniqueImage
  rw [findUniqueImage_foldl]
  simp

theorem pathFileName_ne_empty (p fn : String)
    (h : pathFileName p = some fn) : fn ≠ "" := by
  unfold pathFileName at h
  rw [Option.map_eq_some'] at h
  obtain ⟨l, hl, hfn⟩ := h
  have hmem : l ∈ (splitChar '/' p.toList).filter (fun l => l ≠ []) :=
    List.mem_of_mem_getLast? (by rw [hl]; rfl)
  have hlne : l ≠ [] := by
    have := (List.mem_filter.mp hmem).2
    simpa using this
  intro hc
  rw [hc] at hfn
  exact hlne (by simpa using congrArg String.data hfn)

theorem stemOfName_ne_empty (f : String) (hf : f ≠ "") :
    stemOfName f ≠ "" := by
  unfold stemOfName
  cases h : dropLastDot f.toList with
  | none => exact hf
  | some pre =>
    cases pre with
    | nil => exact hf
    | cons c cs =>
      intro hc
      have : c :: cs = ("" : String).data := congrArg String.data hc
      exact absurd this (by simp)

theorem pathFileStem_ne_empty (p i : String)
    (h : pathFileStem p = some i) : i ≠ "" := by
  unfold pathFileStem at h
  rw [Option.map_eq_some'] at h
  obtain ⟨fn, hfn, hi⟩ := h
  rw [← hi]
  exact stemOfName_ne_empty fn (pathFileName_ne_empty p fn hfn)

/-- Every listed image name is non-empty and different from `"nohup"`. -/
theorem mem_get_list_of_images (env : Env) (loc : ImageLocation)
    (config : Config) (i : String)
    (h : i ∈ get_list_of_images env loc config) :
    i ≠ "" ∧ i ≠ "nohup" := by
  unfold get_list_of_images at h
  cases hd : env.readDir (expandTilde env.home
      (imagesDirFor loc config)) with
  | none => rw [hd] at h; simp at h
  | some entries =>
    rw [hd] at h
    rw [List.mem_filter] at h
    obtain ⟨h1, h2⟩ := h
    have hno : i ≠ "nohup" := by simpa using h2
    rw [List.mem_filterMap] at h1
    obtain ⟨e, _, he⟩ := h1
    have hstem : pathFileStem e.path = some i := by
      by_cases hf : e.isFile = true
      · rw [if_pos hf] at he; exact he
      · rw [if_neg hf] at he; exact absurd he (by simp)
    exact ⟨pathFileStem_ne_empty e.path i hstem, hno⟩

/-- C7: image resolution succeeds, with the path
`IMAGES_DIRECTORY/{name}.img` of the match, exactly when precisely one
available image name contains the requested substring and the proposed
file exists; zero or several matches yield `none`. -/
theorem claim_C7_unique_image_resolution (env : Env) (config : Config)
    (name path : String) :
    get_file_from_image_name env name config = some path ↔
      ∃ r, (get_list_of_images env .WorkingImages config).filter
          (fun i => containsSub i name) = [r] ∧
        path = expandTilde env.home
          (IMAGES_DIRECTORY ++ "/" ++ r ++ ".img") ∧
        env.fileExists path = true := by
  have hne : ∀ i ∈ get_list_of_images env .WorkingImages config,
      i ≠ "" :=
    fun i hi => (mem_get_list_of_images env _ config i hi).1
  unfold get_file_from_image_name
  rw [findUniqueImage_eq]
  cases hm : (get_list_of_images env .WorkingImages config).filter
      (fun i => containsSub i name) with
  | nil => simp
  | cons r rest =>
    cases rest with
    | nil =>
      have hr : r ≠ "" := by
        refine hne r ?_
        have hmm : r ∈ [r] := List.mem_singleton.mpr rfl
        rw [← hm] at hmm
        exact (List.mem_filter.mp hmm).1
      have hgl : ([r] : List String).getLastD "" = r := rfl
      have hcond : ¬ ((([r].length, [r].getLastD "").2 = "" ∨
          (([r] : List String).length, [r].getLastD "").1 > 1)) := by
        rintro (hc | hc)
        · exact hr (by simpa [hgl] using hc)
        · simp at hc
      rw [if_neg hcond]
      by_cases hex : env.fileExists (expandTilde env.home
          (IMAGES_DIRECTORY ++ "/" ++
            (([r] : List String).length, [r].getLastD "").2 ++ ".img")) =
          true
      · rw [if_pos hex]
        simp only [hgl] at hex ⊢
        constructor
        · intro hp
          obtain hpp := Option.some.inj hp
          exact ⟨r, rfl, hpp.symm, by rw [← hpp]; exact hex⟩
        · rintro ⟨r2, hr2, hpath, hfe⟩
          obtain rfl := (List.cons.inj hr2).1
          rw [hpath]
      · rw [if_neg hex]
        simp only [hgl] at hex
        constructor
        · intro hp
          exact absurd hp (by simp)
        · rintro ⟨r2, hr2, hpath, hfe⟩
          obtain rfl := (List.cons.inj hr2).1
          rw [← hpath] at hex
          exact absurd hfe hex
    | cons r2 rest2 =>
      rw [if_pos (Or.inr (by simp))]
      simp

/-- Environment of the C7/C3 witnesses: the images directory holds the
single file `ubuntu.img`, and every file-existence test succeeds. -/
def envResolve : Env :=
  { home := "/home/u"
    readDir := fun _ =>
      some [⟨"/home/u/.vm-manager/disk-images/ubuntu.img", true⟩]
    fileExists := fun _ => true
    probe := fun _ => some false }

theorem claim_C7_witness :
    get_file_from_image_name envResolve "ubu" ⟨none, [], []⟩ =
      some "/home/u/.vm-manager/disk-images/ubuntu.img" :=
  (claim_C7_unique_image_resolution envResolve ⟨none, [], []⟩ "ubu"
    "/home/u/.vm-manager/disk-images/ubuntu.img").mpr
    ⟨"ubuntu", by rfl, by rfl, rfl⟩

/-- C10: the image listing never contains the name `"nohup"` (the
`nohup` output file of daemonized runs is filtered out), and consequently
the unique-match resolution loop can never select it. -/
theorem claim_C10_nohup_never_listed (env : Env) (loc : ImageLocation)
    (config : Config) (name : String) :
    (get_list_of_images env loc config).contains "nohup" = false ∧
    ((findUniqueImage name
        (get_list_of_images env ImageLocation.WorkingImages config)).2
      == "nohup") = false := by
  constructor
  · cases hc : (get_list_of_images env loc config).contains "nohup" with
    | false => rfl
    | true =>
      exact absurd
        (mem_get_list_of_images env loc config "nohup"
          (List.mem_of_elem_eq_true hc)).2 (by simp)
  · rw [findUniqueImage_eq]
    cases hm : (get_list_of_images env ImageLocation.WorkingImages
        config).filter (fun i => containsSub i name) with
    | nil => rfl
    | cons x xs =>
      have hmem0 : (x :: xs).getLastD "" ∈ x :: xs :=
        List.mem_of_mem_getLast? rfl
      have hmem : (x :: xs).getLastD "" ∈
          (get_list_of_images env ImageLocation.WorkingImages
            config).filter (fun i => containsSub i name) := by
        rw [hm]; exact hmem0
      have hlast := (mem_get_list_of_images env _ config _
        ((List.mem_filter.mp hmem).1)).2
      exact beq_eq_false_iff_ne.mpr hlast

/-! ## Claim C3: the running-instance scanner -/

/-- C3 (amended): a single process-table line carrying the hypervisor
binary name and matching the expected token layout yields exactly one
instance, with the PID of token 0 and the SSH/HTTPS host ports of the
clauses at comma positions 2 and 3 of token 21; its displayed image name
equals the file stem of the drive path provided that stem resolves, via
the unique-substring image lookup, to an existing file with the same
stem.  (Unamended, "image_name is the file stem of PATH" fails when the
resolution fails; see the counterexample.) -/
theorem claim_C3_scanner_layout (env : Env) (config : Config)
    (ps_output line : String) (ts : List String)
    (pid_tok drive_tok fname stem nic_tok ssh_clause https_clause
      ssh_field https_field ipath : String) (pid sshp httpsp : Nat)
    (hl : (splitCharS '\n' ps_output).filter
        (fun l => containsSub l "qemu-system-x86_64") = [line])
    (hts : splitWs line = ts)
    (h7 : ts.get? 7 = some drive_tok)
    (hfname : (splitCharS '=' drive_tok).get? 1 = some fname)
    (hstem : pathFileStem fname = some stem)
    (h0 : ts.get? 0 = some pid_tok)
    (hpid : parseUsize pid_tok = some pid)
    (h21 : ts.get? 21 = some nic_tok)
    (hc2 : (splitCharS ',' nic_tok).get? 2 = some ssh_clause)
    (hc3 : (splitCharS ',' nic_tok).get? 3 = some https_clause)
    (hs2 : (splitCharS ':' ssh_clause).get? 2 = some ssh_field)
    (hh2 : (splitCharS ':' https_clause).get? 2 = some https_field)
    (hsp : parseUsize (String.mk ssh_field.toList.dropLast) = some sshp)
    (hhp : parseUsize (String.mk https_field.toList.dropLast) =
      some httpsp)
    (hres : get_file_from_image_name env stem config = some ipath)
    (histem : pathFileStem ipath = some stem) :
    get_list_of_running_vms env config ps_output =
      .ok [QemuRunner.new env sshp httpsp stem (some pid) config] ∧
    (QemuRunner.new env sshp httpsp stem (some pid) config).pid =
      some pid ∧
    (QemuRunner.new env sshp httpsp stem (some pid) config).ssh_port =
      sshp ∧
    (QemuRunner.new env sshp httpsp stem (some pid) config).https_port =
      httpsp ∧
    (QemuRunner.new env sshp httpsp stem (some pid) config).image_name =
      stem := by
  have hline : parsePsLine line = .ok (some ⟨pid, stem, sshp, httpsp⟩) := by
    unfold parsePsLine
    simp only [hts, h7, hfname, hstem, h0, hpid, h21, hc2, hc3, hs2, hh2,
      hsp, hhp]
  refine ⟨?_, rfl, rfl, rfl, ?_⟩
  · unfold get_list_of_running_vms
    rw [hl]
    simp only [scanLines, hline]
  · unfold QemuRunner.image_name QemuRunner.new
    simp only [hres, histem]

/-- The synthetic process-table line of the C3 counterexample and
witness: the exact token layout the command builder produces. -/
def lineX : String :=
  "1234 pts/0 S 0:00 qemu-system-x86_64 -daemonize -drive " ++
  "file=/x/ubuntu.img -m 8G -smp 4 -accel kvm -accel tcg -cpu host " ++
  "-vnc none -nic user,model=virtio,hostfwd=tcp::5555-:22," ++
  "hostfwd=tcp::8081-:443"

/-- An environment whose images directory is empty: the scanner's image
lookup fails there. -/
def envEmpty : Env :=
  { home := "/h"
    readDir := fun _ => some []
    fileExists := fun _ => false
    probe := fun _ => none }

set_option maxRecDepth 8192 in
/-- C3 counterexample: on the very line of the claim, with an empty
images directory, the scanner yields one instance whose `image_name` is
the fallback error string, not the drive path's stem `"ubuntu"` — the
claim as stated does not hold for every environment. -/
theorem claim_C3_counterexample :
    get_list_of_running_vms envEmpty ⟨none, [], []⟩ lineX =
      .ok [QemuRunner.new envEmpty 5555 8081 "ubuntu" (some 1234)
        ⟨none, [], []⟩] ∧
    (QemuRunner.new envEmpty 5555 8081 "ubuntu" (some 1234)
      ⟨none, [], []⟩).image_name = "Can't get image name" := by
  constructor
  · rfl
  · rfl

set_option maxRecDepth 8192 in
theorem claim_C3_witness :
    get_list_of_running_vms envResolve ⟨none, [], []⟩ lineX =
      .ok [QemuRunner.new envResolve 5555 8081 "ubuntu" (some 1234)
        ⟨none, [], []⟩] ∧
    (QemuRunner.new envResolve 5555 8081 "ubuntu" (some 1234)
      ⟨none, [], []⟩).pid = some 1234 ∧
    (QemuRunner.new envResolve 5555 8081 "ubuntu" (some 1234)
      ⟨none, [], []⟩).ssh_port = 5555 ∧
    (QemuRunner.new envResolve 5555 8081 "ubuntu" (some 1234)
      ⟨none, [], []⟩).https_port = 8081 ∧
    (QemuRunner.new envResolve 5555 8081 "ubuntu" (some 1234)
      ⟨none, [], []⟩).image_name = "ubuntu" :=
  claim_C3_scanner_layout envResolve ⟨none, [], []⟩ lineX lineX
    (splitWs lineX) "1234" "file=/x/ubuntu.img" "/x/ubuntu.img" "ubuntu"
    "user,model=virtio,hostfwd=tcp::5555-:22,hostfwd=tcp::8081-:443"
    "hostfwd=tcp::5555-:22" "hostfwd=tcp::8081-:443" "5555-" "8081-"
    "/home/u/.vm-manager/disk-images/ubuntu.img" 1234 5555 8081
    (by rfl) rfl (by rfl) (by rfl) (by rfl) (by rfl) (by rfl) (by rfl)
    (by rfl) (by rfl) (by rfl) (by rfl) (by rfl) (by rfl) (by rfl)
    (by rfl)

end VmManager
